import Mathlib

/-
Shallow embedding of AlphaInputForge.py (AlphaFold 3 JSON generator).

External effects are modelled as explicit oracles:
* the filesystem is a function `fs : String → Option (List String)`
  mapping a path to its lines when the file exists;
* the external jq SMILES-escaping subprocess is
  `esc : String → Option String` (`none` models a CalledProcessError);
* the outcome of the four MMseqs2 subprocess invocations and the
  existence of the produced `.a3m` artifact are recorded per protein in
  an `AlignEnv` record.

Log lines are modelled as a list of `LogEvent`s; only the messages the
program emits with `is_error=True` are relevant to the claims, and all
three such call sites are represented.
-/

namespace AlphaInputForge

/-- One ligand record as stored in the per-protein list by
`load_ligand_data` (the dict value `{"ligand": {"id": [ligand_id], "smiles": escaped_smiles}}`). -/
structure LigandEntry where
  id : String
  smiles : String
deriving DecidableEq, Repr

/-- Log messages emitted with `is_error=True`. `invalidLine` models line 111
(skipping an invalid TSV line, recorded with the stripped line), `escapeError`
models line 123 (jq failure, recorded with the SMILES the call was given), and
`msaFailed` models line 88 (MMseqs2 failure for a protein). -/
inductive LogEvent where
  | invalidLine (line : String)
  | escapeError (smiles : String)
  | msaFailed (proteinId : String)
deriving DecidableEq, Repr

/-- Every modelled log call site passes `is_error=True` in the source. -/
def LogEvent.isError : LogEvent → Bool := fun _ => true

/-- Split a character list on a separator character, keeping empty pieces,
as Python `str.split` with an explicit one-character separator does. -/
def splitOnChar (sep : Char) : List Char → List (List Char)
  | [] => [[]]
  | c :: cs =>
    let r := splitOnChar sep cs
    if c = sep then [] :: r
    else match r with
      | [] => [[c]]
      | h :: t => (c :: h) :: t

/-- Python `s.split("\t")`. -/
def pySplitTab (s : String) : List String :=
  (splitOnChar '\t' s.data).map String.mk

/-- Python `s.strip()`: remove leading and trailing whitespace. -/
def pyStrip (s : String) : String :=
  String.mk (((s.data.dropWhile Char.isWhitespace).reverse.dropWhile
    Char.isWhitespace).reverse)

/-- Models lines 114-124: run jq on the SMILES; on success strip whitespace
and then a surrounding pair of double quotes; on CalledProcessError log the
error and fall back to the raw SMILES. Returns the stored string and the log
events produced. -/
def escapeSmiles (esc : String → Option String) (smiles : String) :
    String × List LogEvent :=
  match esc smiles with
  | some out =>
    let e := pyStrip out
    (if e.startsWith "\"" && e.endsWith "\"" then (e.drop 1).dropRight 1 else e, [])
  | none => (smiles, [LogEvent.escapeError smiles])

/-- The ligand dictionary: a Python dict from protein id to the list of ligand
records, modelled as an association list in key-insertion order. -/
abbrev LigandDict := List (String × List LigandEntry)

/-- Models `if protein_id not in ligand_dict: ligand_dict[protein_id] = []` followed
by `ligand_dict[protein_id].append(rec)` (lines 125-127). -/
def dictAppend (d : LigandDict) (pid : String) (rec : LigandEntry) : LigandDict :=
  match d with
  | [] => [(pid, [rec])]
  | (k, v) :: t => if k = pid then (k, v ++ [rec]) :: t else (k, v) :: dictAppend t pid rec

/-- Python `pid in ligand_dict` / `ligand_dict[pid]`. -/
def dlookup (d : LigandDict) (pid : String) : Option (List LigandEntry) :=
  match d with
  | [] => none
  | (k, v) :: t => if k = pid then some v else dlookup t pid

/-- Lookup defaulting to the empty list. -/
def dlookupD (d : LigandDict) (pid : String) : List LigandEntry :=
  (dlookup d pid).getD []

/-- One iteration of the `for line in file` loop of `load_ligand_data`
(lines 106-127), acting on the (dict, log) state. -/
def stepLine (esc : String → Option String) (st : LigandDict × List LogEvent)
    (line : String) : LigandDict × List LogEvent :=
  let t := pyStrip line
  if t = "" then st
  else
    let parts := pySplitTab t
    if parts.length < 3 then (st.1, st.2 ++ [LogEvent.invalidLine t])
    else
      let pid := parts.getD 0 ""
      let lid := parts.getD 1 ""
      let smiles := parts.getD 2 ""
      (dictAppend st.1 pid ⟨lid, (escapeSmiles esc smiles).1⟩,
       st.2 ++ (escapeSmiles esc smiles).2)

/-- Models `load_ligand_data` (lines 101-128) applied to the lines of an
existing TSV file: fold the per-line step over the lines, starting from the
empty dict. (The existence check of line 104 lives in the caller model,
`resolveLigandDict`.) -/
def load_ligand_data (esc : String → Option String) (lines : List String) :
    LigandDict × List LogEvent :=
  lines.foldl (stepLine esc) ([], [])

/-- The record a single TSV line contributes, if any: `none` for blank or
short lines, otherwise the (protein id, ligand record) pair built from the
first three tab-separated fields of the stripped line. -/
def lineRecord (esc : String → Option String) (line : String) :
    Option (String × LigandEntry) :=
  let t := pyStrip line
  if t = "" then none
  else
    let parts := pySplitTab t
    if parts.length < 3 then none
    else some (parts.getD 0 "", ⟨parts.getD 1 "", (escapeSmiles esc (parts.getD 2 "")).1⟩)

/-- The log events a single TSV line produces. -/
def lineLogs (esc : String → Option String) (line : String) : List LogEvent :=
  let t := pyStrip line
  if t = "" then []
  else
    let parts := pySplitTab t
    if parts.length < 3 then [LogEvent.invalidLine t]
    else (escapeSmiles esc (parts.getD 2 "")).2

/-- The dict component of one loop iteration, in terms of `lineRecord`. -/
def dictStep (esc : String → Option String) (d : LigandDict) (line : String) :
    LigandDict :=
  match lineRecord esc line with
  | some pr => dictAppend d pr.1 pr.2
  | none => d

theorem stepLine_eq (esc : String → Option String) (st : LigandDict × List LogEvent)
    (line : String) :
    stepLine esc st line = (dictStep esc st.1 line, st.2 ++ lineLogs esc line) := by
  unfold stepLine dictStep lineRecord lineLogs
  by_cases h : pyStrip line = "" <;> simp [h]
  by_cases h2 : (pySplitTab (pyStrip line)).length < 3 <;> simp [h2]

theorem foldl_stepLine (esc : String → Option String) (lines : List String)
    (d : LigandDict) (lg : List LogEvent) :
    lines.foldl (stepLine esc) (d, lg)
      = (lines.foldl (dictStep esc) d, lg ++ lines.flatMap (lineLogs esc)) := by
  induction lines generalizing d lg with
  | nil => simp
  | cons l t ih =>
    simp only [List.foldl_cons, stepLine_eq, List.flatMap_cons]
    rw [ih]
    simp [List.append_assoc]

theorem load_ligand_data_eq (esc : String → Option String) (lines : List String) :
    load_ligand_data esc lines
      = (lines.foldl (dictStep esc) [], lines.flatMap (lineLogs esc)) := by
  unfold load_ligand_data
  rw [foldl_stepLine]
  simp

theorem dlookupD_dictAppend_self (d : LigandDict) (pid : String) (rec : LigandEntry) :
    dlookupD (dictAppend d pid rec) pid = dlookupD d pid ++ [rec] := by
  induction d with
  | nil => simp [dictAppend, dlookupD, dlookup]
  | cons kv t ih =>
    obtain ⟨k, v⟩ := kv
    by_cases h : k = pid
    · subst h
      simp [dictAppend, dlookupD, dlookup]
    · have ih2 : (dlookup (dictAppend t pid rec) pid).getD []
          = (dlookup t pid).getD [] ++ [rec] := by
        simpa [dlookupD] using ih
      simp [dictAppend, h, dlookupD, dlookup, ih2]

theorem dlookup_dictAppend_ne (d : LigandDict) (pid q : String) (rec : LigandEntry)
    (h : q ≠ pid) : dlookup (dictAppend d pid rec) q = dlookup d q := by
  have h2 : ¬pid = q := fun hh => h hh.symm
  induction d with
  | nil => simp [dictAppend, dlookup, h2]
  | cons kv t ih =>
    obtain ⟨k, v⟩ := kv
    by_cases hk : k = pid
    · subst hk
      simp [dictAppend, dlookup, h2]
    · by_cases hq : k = q
      · subst hq
        simp [dictAppend, dlookup, hk]
      · simp [dictAppend, dlookup, hk, hq, ih]

theorem dlookupD_dictAppend_ne (d : LigandDict) (pid q : String) (rec : LigandEntry)
    (h : q ≠ pid) : dlookupD (dictAppend d pid rec) q = dlookupD d q := by
  simp [dlookupD, dlookup_dictAppend_ne d pid q rec h]

/-- Per-protein characterization of the dict fold: the list attached to `pid`
is, in order, the records of exactly the valid lines whose first field is
`pid`, appended after whatever the starting dict already held. -/
theorem dlookupD_foldl_dictStep (esc : String → Option String) (lines : List String)
    (d : LigandDict) (pid : String) :
    dlookupD (lines.foldl (dictStep esc) d) pid
      = dlookupD d pid
        ++ ((lines.filterMap (lineRecord esc)).filter
              (fun q => decide (q.1 = pid))).map Prod.snd := by
  induction lines generalizing d with
  | nil => simp
  | cons l t ih =>
    simp only [List.foldl_cons, List.filterMap_cons]
    cases hrec : lineRecord esc l with
    | none => simp [dictStep, hrec, ih]
    | some pr =>
      by_cases hp : pr.1 = pid
      · rw [ih]
        simp [dictStep, hrec, hp, dlookupD_dictAppend_self]
      · rw [ih]
        simp [dictStep, hrec, hp,
          dlookupD_dictAppend_ne _ _ _ _ (fun hh => hp hh.symm)]

/-- All values of the dict built by the loader are non-empty lists. -/
def allValuesNonempty (d : LigandDict) : Bool :=
  d.all (fun kv => decide (kv.2 ≠ []))

theorem valuesNonempty_dictAppend (d : LigandDict) (pid : String) (rec : LigandEntry)
    (h : ∀ kv ∈ d, kv.2 ≠ ([] : List LigandEntry)) :
    ∀ kv ∈ dictAppend d pid rec, kv.2 ≠ ([] : List LigandEntry) := by
  induction d with
  | nil =>
    intro kv hkv
    simp only [dictAppend, List.mem_singleton] at hkv
    simp [hkv]
  | cons hd t ih =>
    obtain ⟨k, v⟩ := hd
    intro kv hkv
    by_cases hk : k = pid
    · subst hk
      rw [show dictAppend ((k, v) :: t) k rec = (k, v ++ [rec]) :: t from by
        simp [dictAppend]] at hkv
      rcases List.mem_cons.mp hkv with h1 | h2
      · simp [h1]
      · exact h kv (List.mem_cons_of_mem _ h2)
    · rw [show dictAppend ((k, v) :: t) pid rec = (k, v) :: dictAppend t pid rec from by
        simp [dictAppend, hk]] at hkv
      rcases List.mem_cons.mp hkv with h1 | h2
      · exact h1 ▸ h (k, v) (List.mem_cons_self _ _)
      · exact ih (fun kv2 hkv2 => h kv2 (List.mem_cons_of_mem _ hkv2)) kv h2

theorem valuesNonempty_foldl (esc : String → Option String) (lines : List String)
    (d : LigandDict) (h : ∀ kv ∈ d, kv.2 ≠ ([] : List LigandEntry)) :
    ∀ kv ∈ lines.foldl (dictStep esc) d, kv.2 ≠ ([] : List LigandEntry) := by
  induction lines generalizing d with
  | nil => exact h
  | cons l t ih =>
    simp only [List.foldl_cons]
    apply ih
    unfold dictStep
    cases lineRecord esc l with
    | none => exact h
    | some pr => exact valuesNonempty_dictAppend d pr.1 pr.2 h

theorem dlookup_none_iff_empty (d : LigandDict) (pid : String)
    (h : ∀ kv ∈ d, kv.2 ≠ ([] : List LigandEntry)) :
    (dlookup d pid = none ↔ dlookupD d pid = []) := by
  induction d with
  | nil => simp [dlookup, dlookupD]
  | cons kv t ih =>
    obtain ⟨k, v⟩ := kv
    by_cases hk : k = pid
    · subst hk
      have hv : v ≠ [] := h (k, v) (List.mem_cons_self _ _)
      simp [dlookup, dlookupD, hv]
    · have := ih (fun kv2 hkv2 => h kv2 (List.mem_cons_of_mem _ hkv2))
      simpa [dlookup, dlookupD, hk] using this

/-- Outcomes of the external invocations `generate_msa` makes for one protein:
whether each of the four MMseqs2 subprocess calls exits zero, and whether the
expected `.a3m` file exists afterwards (line 85). -/
structure AlignEnv where
  createdbOk : Bool
  searchOk : Bool
  alignOk : Bool
  convertOk : Bool
  msaExists : Bool
deriving DecidableEq, Repr

/-- The four external MMseqs2 steps of `generate_msa`, in program order. -/
inductive MsaStep where
  | createdb
  | search
  | align
  | convertalis
deriving DecidableEq, Repr

/-- The `.a3m` path `generate_msa` builds on line 58
(`os.path.join(self.output_dir, f"{protein_id}_unpaired.a3m")`). -/
def msaFilePath (output_dir protein_id : String) : String :=
  output_dir ++ "/" ++ protein_id ++ "_unpaired.a3m"

/-- Models `generate_msa` (lines 56-89): run the four subprocess steps in
order with `check=True`; the first non-zero exit raises, is caught, logged,
and yields `""`; if all four succeed the `.a3m` path is returned when the
file exists, else `""`. Returns (result, steps actually invoked, log events). -/
def generate_msa (env : AlignEnv) (output_dir protein_id : String) :
    String × List MsaStep × List LogEvent :=
  if env.createdbOk = false then
    ("", [MsaStep.createdb], [LogEvent.msaFailed protein_id])
  else if env.searchOk = false then
    ("", [MsaStep.createdb, MsaStep.search], [LogEvent.msaFailed protein_id])
  else if env.alignOk = false then
    ("", [MsaStep.createdb, MsaStep.search, MsaStep.align],
     [LogEvent.msaFailed protein_id])
  else if env.convertOk = false then
    ("", [MsaStep.createdb, MsaStep.search, MsaStep.align, MsaStep.convertalis],
     [LogEvent.msaFailed protein_id])
  else
    ((if env.msaExists then msaFilePath output_dir protein_id else ""),
     [MsaStep.createdb, MsaStep.search, MsaStep.align, MsaStep.convertalis], [])

/-- All four external steps of the aligner exit zero. -/
def AlignEnv.allOk (e : AlignEnv) : Bool :=
  e.createdbOk && e.searchOk && e.alignOk && e.convertOk

/-- Drop an expected leading character sequence, or fail. -/
def dropLeading : List Char → List Char → Option (List Char)
  | [], s => some s
  | _ :: _, [] => none
  | p :: ps, c :: cs => if c = p then dropLeading ps cs else none

/-- Models `os.path.relpath(path, start)` for the one shape the program
produces: `path` is `start` plus a separator plus a file name (line 58 builds
the path by joining the output directory with the file name, and line 153
relativizes it against that same directory). For such inputs relpath returns
the remainder after the separator. -/
def relpath (path start : String) : String :=
  match dropLeading (start ++ "/").data path.data with
  | some rest => String.mk rest
  | none => path

theorem dropLeading_append (p rest : List Char) :
    dropLeading p (p ++ rest) = some rest := by
  induction p with
  | nil => simp [dropLeading]
  | cons c cs ih => simp [dropLeading, ih]

theorem relpath_append (start t : String) : relpath (start ++ "/" ++ t) start = t := by
  unfold relpath
  have hdata : (start ++ "/" ++ t).data = (start ++ "/").data ++ t.data := by
    simp [String.data_append]
  rw [hdata, dropLeading_append]

theorem msaFilePath_ne_empty (output_dir protein_id : String) :
    msaFilePath output_dir protein_id ≠ "" := by
  intro hcontra
  have hlen := congrArg String.length hcontra
  simp [msaFilePath, String.length_append] at hlen
  exact absurd hlen.2 (by decide)

/-- One protein entry of the output JSON (lines 155-157): id, sequence, and
the optional `unpairedMsaPath` key, present only when the relative path is
non-empty. -/
structure ProteinEntry where
  id : String
  sequence : String
  unpairedMsaPath : Option String
deriving DecidableEq, Repr

/-- An element of the output `sequences` list: either a `{"protein": ...}`
object or a `{"ligand": ...}` object. -/
inductive Entry where
  | protein (p : ProteinEntry)
  | ligand (l : LigandEntry)
deriving DecidableEq, Repr

def Entry.isProtein : Entry → Bool
  | .protein _ => true
  | .ligand _ => false

def Entry.isLigand : Entry → Bool
  | .protein _ => false
  | .ligand _ => true

/-- Project a protein entry out of a sequences element. -/
def entryProtein : Entry → Option ProteinEntry
  | .protein p => some p
  | .ligand _ => none

/-- Recognize a protein entry carrying a given identifier. -/
def isProteinWithId (pid : String) : Entry → Bool
  | .protein p => decide (p.id = pid)
  | .ligand _ => false

/-- The JSON document written per FASTA file (lines 167-173). -/
structure OutputDocument where
  name : String
  sequences : List Entry
  dialect : String
  version : Nat
deriving DecidableEq, Repr

/-- Models lines 150-158 for one record `(protein_id, sequence)`: call
`generate_msa`, relativize the result against the output folder when
non-empty, and attach `unpairedMsaPath` only when the relative path is a
non-empty (truthy) string. `env` gives each protein id its external
subprocess outcomes. -/
def mkProteinEntry (env : String → AlignEnv) (output_folder : String)
    (r : String × String) : ProteinEntry :=
  let msaAbs := (generate_msa (env r.1) output_folder r.1).1
  let msaRel := if msaAbs = "" then "" else relpath msaAbs output_folder
  { id := r.1, sequence := r.2,
    unpairedMsaPath := if msaRel = "" then none else some msaRel }

/-- The ligand entries one protein id contributes (lines 161-162). -/
def ligandBlock (dict : LigandDict) (pid : String) : List Entry :=
  (dlookupD dict pid).map Entry.ligand

/-- One iteration of the record loop (lines 149-162), acting on the
(proteins, ligands) pair of growing lists. -/
def stepRecord (env : String → AlignEnv) (output_folder : String)
    (dict : LigandDict) (st : List Entry × List Entry) (r : String × String) :
    List Entry × List Entry :=
  (st.1 ++ [Entry.protein (mkProteinEntry env output_folder r)],
   st.2 ++ (match dlookup dict r.1 with
            | some recs => recs.map Entry.ligand
            | none => []))

/-- Path of the same-named TSV (line 141):
`os.path.join(input_folder, fasta_file.replace(".fasta", ".tsv"))`. -/
def tsvPath (input_folder fasta_file : String) : String :=
  input_folder ++ "/" ++ (fasta_file.replace ".fasta" ".tsv")

/-- Path of the shared fallback table (line 143). -/
def defaultTsvPath (input_folder : String) : String :=
  input_folder ++ "/" ++ "Uniform.tsv"

/-- Models lines 141-144: prefer the same-named TSV, fall back to
`Uniform.tsv`, and use an empty dict when the chosen file does not exist.
`fs` maps an existing file's path to its lines. -/
def resolveLigandDict (fs : String → Option (List String))
    (esc : String → Option String) (input_folder fasta_file : String) : LigandDict :=
  let tsv1 := tsvPath input_folder fasta_file
  let tsv := if (fs tsv1).isSome then tsv1 else defaultTsvPath input_folder
  match fs tsv with
  | some lines => (load_ligand_data esc lines).1
  | none => []

/-- Models `process_fasta_file` (lines 130-175): resolve and load the ligand
dict, loop over the parsed FASTA records accumulating protein and ligand
entries, and emit the document with `sequences = proteins + ligands`,
dialect `"alphafold3"`, version 2. `records` is the oracle for
`SeqIO.parse` on this file: its ordered (id, sequence) pairs. -/
def process_fasta_file (fs : String → Option (List String))
    (esc : String → Option String) (env : String → AlignEnv)
    (input_folder output_folder fasta_file : String)
    (records : List (String × String)) : OutputDocument :=
  let dict := resolveLigandDict fs esc input_folder fasta_file
  let st := records.foldl (stepRecord env output_folder dict) ([], [])
  { name := fasta_file, sequences := st.1 ++ st.2,
    dialect := "alphafold3", version := 2 }

theorem stepRecord_eq (env : String → AlignEnv) (output_folder : String)
    (dict : LigandDict) (st : List Entry × List Entry) (r : String × String) :
    stepRecord env output_folder dict st r
      = (st.1 ++ [Entry.protein (mkProteinEntry env output_folder r)],
         st.2 ++ ligandBlock dict r.1) := by
  unfold stepRecord ligandBlock dlookupD
  cases dlookup dict r.1 <;> simp

theorem foldl_stepRecord (env : String → AlignEnv) (output_folder : String)
    (dict : LigandDict) (records : List (String × String))
    (ps ls : List Entry) :
    records.foldl (stepRecord env output_folder dict) (ps, ls)
      = (ps ++ records.map (fun r => Entry.protein (mkProteinEntry env output_folder r)),
         ls ++ (records.map (fun r => ligandBlock dict r.1)).flatten) := by
  induction records generalizing ps ls with
  | nil => simp
  | cons r t ih =>
    simp only [List.foldl_cons, stepRecord_eq, List.map_cons, List.flatten]
    rw [ih]
    simp [List.append_assoc]

/-- The sequences list the assembler produces: all protein entries in record
order, then the per-record ligand blocks in record order. -/
theorem process_fasta_file_sequences (fs : String → Option (List String))
    (esc : String → Option String) (env : String → AlignEnv)
    (input_folder output_folder fasta_file : String)
    (records : List (String × String)) :
    (process_fasta_file fs esc env input_folder output_folder fasta_file records).sequences
      = records.map (fun r => Entry.protein (mkProteinEntry env output_folder r))
        ++ (records.map
              (fun r => ligandBlock (resolveLigandDict fs esc input_folder fasta_file) r.1)).flatten := by
  unfold process_fasta_file
  simp only [foldl_stepRecord]
  simp

/-- Holds of an entry list in which every protein-tagged entry precedes every
ligand-tagged entry: from the first ligand entry on, only ligand entries
follow. -/
def proteinsFirst : List Entry → Bool
  | [] => true
  | Entry.protein _ :: t => proteinsFirst t
  | Entry.ligand _ :: t => t.all Entry.isLigand

theorem proteinsFirst_append (ps ls : List Entry)
    (hp : ∀ e ∈ ps, e.isProtein = true) (hl : ∀ e ∈ ls, e.isLigand = true) :
    proteinsFirst (ps ++ ls) = true := by
  induction ps with
  | nil =>
    simp only [List.nil_append]
    cases ls with
    | nil => rfl
    | cons e t =>
      have he := hl e (List.mem_cons_self _ _)
      cases e with
      | protein p => simp [Entry.isLigand] at he
      | ligand l =>
        simp only [proteinsFirst, List.all_eq_true]
        exact fun x hx => hl x (List.mem_cons_of_mem _ hx)
  | cons e t ih =>
    have he := hp e (List.mem_cons_self _ _)
    cases e with
    | protein p =>
      simp only [List.cons_append, proteinsFirst]
      exact ih (fun x hx => hp x (List.mem_cons_of_mem _ hx))
    | ligand l => simp [Entry.isProtein] at he

theorem mem_ligandBlock_isLigand (dict : LigandDict) (pid : String) :
    ∀ e ∈ ligandBlock dict pid, e.isLigand = true := by
  intro e he
  obtain ⟨x, _, rfl⟩ := List.mem_map.mp he
  rfl

theorem mem_ligand_flatten_isLigand (dict : LigandDict)
    (records : List (String × String)) :
    ∀ e ∈ (records.map (fun r => ligandBlock dict r.1)).flatten,
      e.isLigand = true := by
  intro e he
  obtain ⟨l, hl, hel⟩ := List.mem_flatten.mp he
  obtain ⟨r, _, rfl⟩ := List.mem_map.mp hl
  exact mem_ligandBlock_isLigand dict r.1 e hel

/-- The ligand entries of the assembled `sequences` list are exactly the
per-record ligand blocks, flattened in record order. -/
theorem sequences_filter_isLigand (fs : String → Option (List String))
    (esc : String → Option String) (env : String → AlignEnv)
    (input_folder output_folder fasta_file : String)
    (records : List (String × String)) :
    ((process_fasta_file fs esc env input_folder output_folder fasta_file
        records).sequences).filter Entry.isLigand
      = (records.map
          (fun r => ligandBlock (resolveLigandDict fs esc input_folder fasta_file) r.1)).flatten := by
  rw [process_fasta_file_sequences, List.filter_append]
  have h1 : (records.map
      (fun r => Entry.protein (mkProteinEntry env output_folder r))).filter
        Entry.isLigand = [] := by
    rw [List.filter_eq_nil_iff]
    intro e he
    obtain ⟨r, _, rfl⟩ := List.mem_map.mp he
    simp [Entry.isLigand]
  have h2 := List.filter_eq_self.mpr
    (mem_ligand_flatten_isLigand (resolveLigandDict fs esc input_folder fasta_file) records)
  rw [h1, h2, List.nil_append]

theorem ligandBlock_eq_nil_of_none (dict : LigandDict) (pid : String)
    (h : dlookup dict pid = none) : ligandBlock dict pid = [] := by
  simp [ligandBlock, dlookupD, h]

/-- Records whose protein id has no dict entry contribute nothing to the
flattened ligand blocks. -/
theorem flatten_ligandBlock_filter (dict : LigandDict)
    (records : List (String × String)) :
    (records.map (fun r => ligandBlock dict r.1)).flatten
      = ((records.filter (fun r => (dlookup dict r.1).isSome)).map
          (fun r => ligandBlock dict r.1)).flatten := by
  induction records with
  | nil => rfl
  | cons r t ih =>
    cases h : dlookup dict r.1 with
    | none =>
      simp only [List.map_cons, List.flatten_cons, List.filter_cons, h,
        Option.isSome_none, Bool.false_eq_true, if_false]
      rw [ligandBlock_eq_nil_of_none dict r.1 h, List.nil_append, ih]
    | some recs =>
      simp only [List.map_cons, List.flatten_cons, List.filter_cons, h,
        Option.isSome_some, if_true]
      rw [ih]

theorem sequences_countP_isProtein (fs : String → Option (List String))
    (esc : String → Option String) (env : String → AlignEnv)
    (input_folder output_folder fasta_file : String)
    (records : List (String × String)) :
    ((process_fasta_file fs esc env input_folder output_folder fasta_file
        records).sequences).countP Entry.isProtein = records.length := by
  rw [process_fasta_file_sequences, List.countP_append]
  have h1 : (records.map
      (fun r => Entry.protein (mkProteinEntry env output_folder r))).countP
        Entry.isProtein = records.length := by
    rw [List.countP_map]
    have h0 : ∀ x ∈ records,
        ((Entry.isProtein ∘ fun r => Entry.protein (mkProteinEntry env output_folder r)) x
          = true)
          ↔ ((fun _ => true) x = true) := fun x _ => Iff.rfl
    rw [List.countP_congr h0, List.countP_true]
  have h2 : ((records.map
      (fun r => ligandBlock (resolveLigandDict fs esc input_folder fasta_file) r.1)).flatten).countP
        Entry.isProtein = 0 := by
    rw [List.countP_eq_zero]
    intro e he
    have := mem_ligand_flatten_isLigand _ records e he
    cases e with
    | protein p => simp [Entry.isLigand] at this
    | ligand l => simp [Entry.isProtein]
  rw [h1, h2, Nat.add_zero]

theorem append_a3m_ne_empty (s : String) : s ++ "_unpaired.a3m" ≠ "" := by
  intro hcontra
  have hlen := congrArg String.length hcontra
  simp [String.length_append] at hlen
  exact absurd hlen.2 (by decide)

theorem slash_append_ne_empty (a t : String) : a ++ "/" ++ t ≠ "" := by
  intro hcontra
  have hlen := congrArg String.length hcontra
  simp [String.length_append] at hlen
  exact absurd hlen.1.2 (by decide)

theorem msaFilePath_assoc (output_dir protein_id : String) :
    msaFilePath output_dir protein_id
      = output_dir ++ "/" ++ (protein_id ++ "_unpaired.a3m") := by
  simp [msaFilePath, String.append_assoc]

/-- What the per-record loop body actually stores: the `unpairedMsaPath`
field holds the output-folder-relative path exactly when all four external
steps succeeded and the artifact exists. -/
theorem mkProteinEntry_eq (env : String → AlignEnv) (output_folder : String)
    (r : String × String) :
    mkProteinEntry env output_folder r
      = { id := r.1, sequence := r.2,
          unpairedMsaPath :=
            if ((env r.1).allOk && (env r.1).msaExists) = true
            then some (r.1 ++ "_unpaired.a3m") else none } := by
  unfold mkProteinEntry
  cases henv : env r.1 with
  | mk b1 b2 b3 b4 b5 =>
    cases b1 <;> cases b2 <;> cases b3 <;> cases b4 <;> cases b5 <;>
      simp [generate_msa, AlignEnv.allOk, msaFilePath_assoc, relpath_append,
        slash_append_ne_empty, append_a3m_ne_empty]

/-- Claim C1: in every document the assembler produces, every protein entry
precedes every ligand entry, and the sequences list is exactly the protein
entries in record order followed by the per-protein ligand blocks, grouped
by owning record in processing order, regardless of the interleaved
processing loop. -/
theorem claim_c1_protein_entries_precede_ligand_entries
    (fs : String → Option (List String)) (esc : String → Option String)
    (env : String → AlignEnv) (input_folder output_folder fasta_file : String)
    (records : List (String × String)) :
    (process_fasta_file fs esc env input_folder output_folder fasta_file records).sequences
      = records.map (fun r => Entry.protein (mkProteinEntry env output_folder r))
        ++ (records.map
             (fun r => ligandBlock (resolveLigandDict fs esc input_folder fasta_file) r.1)).flatten
    ∧ proteinsFirst
        (process_fasta_file fs esc env input_folder output_folder fasta_file records).sequences
      = true := by
  refine ⟨process_fasta_file_sequences fs esc env input_folder output_folder
    fasta_file records, ?_⟩
  rw [process_fasta_file_sequences]
  apply proteinsFirst_append
  · intro e he
    obtain ⟨r, _, rfl⟩ := List.mem_map.mp he
    rfl
  · exact mem_ligand_flatten_isLigand _ records

/-- Claim C2: `generate_msa` returns the failure marker `""` exactly when one
of the four external steps exits non-zero or the artifact is missing; a
non-zero exit is logged at error severity and the remaining steps are
abandoned (the invoked-step list stops at the failing step); the artifact
path is returned exactly when all four steps succeed and the artifact
exists; and no outcome prevents the assembler from emitting one protein
entry per record. -/
theorem claim_c2_generate_msa_failure_semantics (e : AlignEnv) (out pid : String)
    (fs : String → Option (List String)) (esc : String → Option String)
    (env : String → AlignEnv) (input_folder output_folder fasta_file : String)
    (records : List (String × String)) :
    (((generate_msa e out pid).1 = "")
      ↔ ¬(e.allOk = true ∧ e.msaExists = true))
    ∧ (((generate_msa e out pid).1 = msaFilePath out pid)
      ↔ (e.allOk = true ∧ e.msaExists = true))
    ∧ (((generate_msa e out pid).2.2 = [LogEvent.msaFailed pid]) ↔ ¬e.allOk = true)
    ∧ (((generate_msa e out pid).2.2 = []) ↔ e.allOk = true)
    ∧ (((generate_msa e out pid).2.2).all LogEvent.isError = true)
    ∧ (((generate_msa e out pid).2.1 = [MsaStep.createdb])
      ↔ e.createdbOk = false)
    ∧ (((generate_msa e out pid).2.1 = [MsaStep.createdb, MsaStep.search])
      ↔ (e.createdbOk = true ∧ e.searchOk = false))
    ∧ (((generate_msa e out pid).2.1 = [MsaStep.createdb, MsaStep.search, MsaStep.align])
      ↔ (e.createdbOk = true ∧ e.searchOk = true ∧ e.alignOk = false))
    ∧ (((generate_msa e out pid).2.1
          = [MsaStep.createdb, MsaStep.search, MsaStep.align, MsaStep.convertalis])
      ↔ (e.createdbOk = true ∧ e.searchOk = true ∧ e.alignOk = true))
    ∧ (((process_fasta_file fs esc env input_folder output_folder fasta_file
          records).sequences).countP Entry.isProtein = records.length) := by
  refine ⟨?_, ?_, ?_, ?_, ?_, ?_, ?_, ?_, ?_,
    sequences_countP_isProtein fs esc env input_folder output_folder fasta_file records⟩ <;>
    obtain ⟨b1, b2, b3, b4, b5⟩ := e <;>
    cases b1 <;> cases b2 <;> cases b3 <;> cases b4 <;> cases b5 <;>
      simp [generate_msa, AlignEnv.allOk, LogEvent.isError,
        msaFilePath_ne_empty out pid, Ne.symm (msaFilePath_ne_empty out pid)]

/-- Claim C3: a protein record whose identifier has no entry in the resolved
ligand dict contributes zero ligand entries: the ligand entries of the output
are unchanged when all such records are dropped, so no placeholder is
emitted for them. -/
theorem claim_c3_no_ligand_entries_for_unmatched_proteins
    (fs : String → Option (List String)) (esc : String → Option String)
    (env : String → AlignEnv) (input_folder output_folder fasta_file : String)
    (records : List (String × String)) :
    ((process_fasta_file fs esc env input_folder output_folder fasta_file
        records).sequences).filter Entry.isLigand
      = ((process_fasta_file fs esc env input_folder output_folder fasta_file
          (records.filter (fun r =>
            (dlookup (resolveLigandDict fs esc input_folder fasta_file) r.1).isSome))).sequences).filter
          Entry.isLigand := by
  rw [sequences_filter_isLigand, sequences_filter_isLigand,
    flatten_ligandBlock_filter]

/-- Claim C4: the protein entries of the output are exactly one per record,
in order, and each carries `unpairedMsaPath` with the artifact path relative
to the output folder precisely when alignment succeeded for that protein;
on failure the field is absent and the record is still emitted. -/
theorem claim_c4_relative_msa_path_iff_success
    (fs : String → Option (List String)) (esc : String → Option String)
    (env : String → AlignEnv) (input_folder output_folder fasta_file : String)
    (records : List (String × String)) :
    ((process_fasta_file fs esc env input_folder output_folder fasta_file
        records).sequences).filterMap entryProtein
      = records.map (fun r =>
          { id := r.1, sequence := r.2,
            unpairedMsaPath :=
              if ((env r.1).allOk && (env r.1).msaExists) = true
              then some (r.1 ++ "_unpaired.a3m") else none }) := by
  rw [process_fasta_file_sequences, List.filterMap_append]
  have h2 : ((records.map
      (fun r => ligandBlock (resolveLigandDict fs esc input_folder fasta_file) r.1)).flatten).filterMap
        entryProtein = [] := by
    rw [List.filterMap_eq_nil_iff]
    intro e he
    have := mem_ligand_flatten_isLigand _ records e he
    cases e with
    | protein p => simp [Entry.isLigand] at this
    | ligand l => rfl
  rw [h2, List.append_nil, List.filterMap_map]
  have h1 : ∀ r : String × String,
      (entryProtein ∘ fun r => Entry.protein (mkProteinEntry env output_folder r)) r
        = some (mkProteinEntry env output_folder r) := fun r => rfl
  calc (records.filterMap
          (entryProtein ∘ fun r => Entry.protein (mkProteinEntry env output_folder r)))
      = records.map (fun r => mkProteinEntry env output_folder r) := by
        rw [List.filterMap_eq_map_iff_forall_eq_some.mpr]
        intro r _
        exact h1 r
    _ = records.map (fun r =>
          { id := r.1, sequence := r.2,
            unpairedMsaPath :=
              if ((env r.1).allOk && (env r.1).msaExists) = true
              then some (r.1 ++ "_unpaired.a3m") else none }) := by
        apply List.map_congr_left
        intro r _
        exact mkProteinEntry_eq env output_folder r

/-- Claim C5: the ligand table is resolved by first checking the same-named
TSV, then the shared `Uniform.tsv` fallback, and an empty mapping is used
when neither exists; a row present only in the fallback table is therefore
loaded and attached exactly as a same-named row would be. -/
theorem claim_c5_ligand_table_resolution
    (fs : String → Option (List String)) (esc : String → Option String)
    (input_folder fasta_file : String) :
    resolveLigandDict fs esc input_folder fasta_file
      = match fs (tsvPath input_folder fasta_file) with
        | some lines => (load_ligand_data esc lines).1
        | none =>
          match fs (defaultTsvPath input_folder) with
          | some lines => (load_ligand_data esc lines).1
          | none => [] := by
  unfold resolveLigandDict
  cases h1 : fs (tsvPath input_folder fasta_file) with
  | some lines => simp [h1]
  | none =>
    cases h2 : fs (defaultTsvPath input_folder) with
    | some lines => simp [h1, h2]
    | none => simp [h1, h2]

/-- Claim C6: the ligand records attached to a protein id are exactly those
of the non-blank, at-least-three-field lines whose first field is that id,
in table order, each built from the first three tab-separated fields with
the SMILES passed through the escaping step — duplicates included, nothing
deduplicated. -/
theorem claim_c6_valid_lines_appended_in_table_order
    (esc : String → Option String) (lines : List String) (pid : String) :
    dlookupD ((load_ligand_data esc lines).1) pid
      = ((lines.filterMap (lineRecord esc)).filter
          (fun q => decide (q.1 = pid))).map Prod.snd := by
  rw [load_ligand_data_eq]
  simpa [dlookupD, dlookup] using dlookupD_foldl_dictStep esc lines [] pid

/-- Claim C7: a non-blank line with fewer than three tab-separated fields is
logged as invalid and skipped: the resulting dict is the one obtained
without the line, and loading continues over the remaining lines. -/
theorem claim_c7_short_lines_logged_and_skipped
    (esc : String → Option String) (line : String) (rest : List String)
    (hnb : pyStrip line ≠ "") (hlt : (pySplitTab (pyStrip line)).length < 3) :
    (load_ligand_data esc (line :: rest)).1 = (load_ligand_data esc rest).1
    ∧ (load_ligand_data esc (line :: rest)).2
        = LogEvent.invalidLine (pyStrip line) :: (load_ligand_data esc rest).2 := by
  have hrec : lineRecord esc line = none := by
    simp [lineRecord, hnb, hlt]
  have hlg : lineLogs esc line = [LogEvent.invalidLine (pyStrip line)] := by
    simp [lineLogs, hnb, hlt]
  constructor
  · rw [load_ligand_data_eq, load_ligand_data_eq]
    simp [dictStep, hrec]
  · rw [load_ligand_data_eq, load_ligand_data_eq]
    simp [hlg]

theorem claim_c7_witness :
    (load_ligand_data (fun s => some s) ["P1\tL1"]).1
      = (load_ligand_data (fun s => some s) []).1
    ∧ (load_ligand_data (fun s => some s) ["P1\tL1"]).2
        = LogEvent.invalidLine (pyStrip "P1\tL1")
          :: (load_ligand_data (fun s => some s) []).2 :=
  claim_c7_short_lines_logged_and_skipped (fun s => some s) "P1\tL1" []
    (by decide) (by decide)

/-- Claim C8: when the external escaping capability fails on a record's
SMILES, the loader logs the error, stores the raw unescaped SMILES for that
record, and continues loading the remaining lines. -/
theorem claim_c8_escape_failure_stores_raw_smiles
    (esc : String → Option String) (line : String) (rest : List String)
    (pid lid smiles : String) (more : List String)
    (hparts : pySplitTab (pyStrip line) = pid :: lid :: smiles :: more)
    (hesc : esc smiles = none) :
    dlookupD ((load_ligand_data esc (line :: rest)).1) pid
        = ⟨lid, smiles⟩ :: dlookupD ((load_ligand_data esc rest).1) pid
    ∧ (load_ligand_data esc (line :: rest)).2
        = LogEvent.escapeError smiles :: (load_ligand_data esc rest).2 := by
  have hnb : pyStrip line ≠ "" := by
    intro h0
    rw [h0, show pySplitTab "" = [""] from rfl] at hparts
    simp at hparts
  have hge : ¬(pySplitTab (pyStrip line)).length < 3 := by
    rw [hparts]
    simp
  have hrec : lineRecord esc line = some (pid, ⟨lid, smiles⟩) := by
    simp [lineRecord, hnb, hge, hparts, escapeSmiles, hesc]
  have hlg : lineLogs esc line = [LogEvent.escapeError smiles] := by
    simp [lineLogs, hnb, hge, hparts, escapeSmiles, hesc]
  constructor
  · rw [load_ligand_data_eq, load_ligand_data_eq]
    simp only [List.foldl_cons]
    rw [show dictStep esc [] line = dictAppend [] pid ⟨lid, smiles⟩ from by
      simp [dictStep, hrec]]
    rw [dlookupD_foldl_dictStep, dlookupD_foldl_dictStep]
    simp [dictAppend, dlookupD, dlookup]
  · rw [load_ligand_data_eq, load_ligand_data_eq]
    simp [hlg]

theorem claim_c8_witness :
    dlookupD ((load_ligand_data (fun _ => none) ["P1\tL1\tCCO"]).1) "P1"
        = ⟨"L1", "CCO"⟩ :: dlookupD ((load_ligand_data (fun _ => none) []).1) "P1"
    ∧ (load_ligand_data (fun _ => none) ["P1\tL1\tCCO"]).2
        = LogEvent.escapeError "CCO" :: (load_ligand_data (fun _ => none) []).2 :=
  claim_c8_escape_failure_stores_raw_smiles (fun _ => none) "P1\tL1\tCCO" []
    "P1" "L1" "CCO" [] (by decide) rfl

/-- Claim C9: every key of the dict the loader returns maps to a non-empty
record list, and a protein id is absent from the dict exactly when the table
has no valid line for it — so a protein whose lines are all invalid is
indistinguishable from one with no lines at all. -/
theorem claim_c9_keys_map_to_nonempty_lists
    (esc : String → Option String) (lines : List String) (pid : String) :
    allValuesNonempty ((load_ligand_data esc lines).1) = true
    ∧ ((dlookup ((load_ligand_data esc lines).1) pid = none)
        ↔ ((lines.filterMap (lineRecord esc)).filter
            (fun q => decide (q.1 = pid))) = []) := by
  have hne : ∀ kv ∈ (load_ligand_data esc lines).1,
      kv.2 ≠ ([] : List LigandEntry) := by
    rw [load_ligand_data_eq]
    exact valuesNonempty_foldl esc lines [] (by simp)
  constructor
  · rw [allValuesNonempty, List.all_eq_true]
    intro kv hkv
    simpa using hne kv hkv
  · rw [dlookup_none_iff_empty _ _ hne]
    rw [load_ligand_data_eq]
    have hchar := dlookupD_foldl_dictStep esc lines [] pid
    simp only [dlookupD, dlookup, Option.getD_none] at hchar
    simp only [dlookupD]
    rw [hchar]
    simp

/-- Claim C10: a protein id occurring k times among the records yields k
protein entries, and the ligand section is the per-record flattening of
independent dict lookups, so that id's ligand block appears once per
occurrence. -/
theorem claim_c10_duplicate_identifiers_processed_per_occurrence
    (fs : String → Option (List String)) (esc : String → Option String)
    (env : String → AlignEnv) (input_folder output_folder fasta_file : String)
    (records : List (String × String)) (pid : String) :
    ((process_fasta_file fs esc env input_folder output_folder fasta_file
        records).sequences).countP (isProteinWithId pid)
      = (records.map Prod.fst).countP (fun s => decide (s = pid))
    ∧ ((process_fasta_file fs esc env input_folder output_folder fasta_file
        records).sequences).filter Entry.isLigand
      = (records.map
          (fun r => ligandBlock (resolveLigandDict fs esc input_folder fasta_file) r.1)).flatten := by
  refine ⟨?_, sequences_filter_isLigand fs esc env input_folder output_folder
    fasta_file records⟩
  rw [process_fasta_file_sequences, List.countP_append]
  have h2 : ((records.map
      (fun r => ligandBlock (resolveLigandDict fs esc input_folder fasta_file) r.1)).flatten).countP
        (isProteinWithId pid) = 0 := by
    rw [List.countP_eq_zero]
    intro e he
    have := mem_ligand_flatten_isLigand _ records e he
    cases e with
    | protein p => simp [Entry.isLigand] at this
    | ligand l => simp [isProteinWithId]
  rw [h2, Nat.add_zero, List.countP_map, List.countP_map]
  apply List.countP_congr
  intro r _
  simp [isProteinWithId, mkProteinEntry, Function.comp]

end AlphaInputForge
